import Mathlib

/-!
Verification of the heuristic threat-scoring core of the Aegis One email
extension: the Levenshtein primitive and the local inbox analyzer
(src/background.js), the link-deception analyzer (content script), and the
AI-response normalization / hybrid-fallback layer (src/prompt-templates.js,
src/background.js SCAN_INBOX_THREATS handler).

JavaScript strings are modelled as lists of characters.  Platform builtins
that are not repository code (WHATWG URL parsing, the URL-like regex
matcher, JSON.parse) are taken as explicit function parameters of the
embedded definitions, so every theorem quantifies over their behaviour.
-/

namespace Aegis

/-- JavaScript strings, modelled as lists of characters. -/
abbrev Str := List Char

/-- ASCII lower-casing of one character, the effect of
String.prototype.toLowerCase on the ASCII inputs handled here. -/
def toLowerChar (c : Char) : Char :=
  if 'A' ≤ c ∧ c ≤ 'Z' then Char.ofNat (c.toNat + 32) else c

/-- String.prototype.toLowerCase. -/
def strLower (s : Str) : Str := s.map toLowerChar

/-- String.prototype.startsWith. -/
def strStartsWith (s pre : Str) : Bool := pre.isPrefixOf s

/-- String.prototype.endsWith. -/
def strEndsWith (s suffix : Str) : Bool := suffix.isSuffixOf s

/-- String.prototype.includes (substring test). -/
def strContains : Str → Str → Bool
  | s, sub =>
      if sub.isPrefixOf s then true
      else match s with
        | [] => false
        | _ :: t => strContains t sub

/-- Array.prototype.join on strings. -/
def strJoin (sep : Str) (parts : List Str) : Str := List.intercalate sep parts

/-- String.prototype.trim. -/
def strTrim (s : Str) : Str :=
  ((s.dropWhile Char.isWhitespace).reverse.dropWhile Char.isWhitespace).reverse

/-- Decimal rendering of a number, the effect of JS template interpolation. -/
def natToStr (n : Nat) : Str := Nat.toDigits 10 n

/-! ## 4.1 StringDistance — reference definition

The classic Levenshtein edit distance, by its textbook recurrence; below it
is also characterised as the least cost of an edit script (EditSeq). -/

/-- Classic edit distance: minimum number of single-character insertions,
deletions, or substitutions transforming the first list into the second. -/
def editDist : Str → Str → Nat
  | [], ys => ys.length
  | x :: xs, [] => (x :: xs).length
  | x :: xs, y :: ys =>
      if x = y then editDist xs ys
      else 1 + min (editDist xs ys) (min (editDist (x :: xs) ys) (editDist xs (y :: ys)))
termination_by xs ys => xs.length + ys.length

/-- An edit script from one string to the other together with its cost:
matching characters are free, substitutions, deletions and insertions of a
single character cost one each. -/
inductive EditSeq : Str → Str → Nat → Prop where
  | nil : EditSeq [] [] 0
  | keep (c : Char) {xs ys : Str} {n : Nat} :
      EditSeq xs ys n → EditSeq (c :: xs) (c :: ys) n
  | subst (c d : Char) {xs ys : Str} {n : Nat} :
      EditSeq xs ys n → EditSeq (c :: xs) (d :: ys) (n + 1)
  | del (c : Char) {xs ys : Str} {n : Nat} :
      EditSeq xs ys n → EditSeq (c :: xs) ys (n + 1)
  | ins (d : Char) {xs ys : Str} {n : Nat} :
      EditSeq xs ys n → EditSeq xs (d :: ys) (n + 1)

/-! ## 4.1 StringDistance — implementation

Shallow embedding of levenshtein from src/background.js.  The imperative
matrix is filled row by row (outer loop over b, inner loop over a); a row is
computed from the previous row by levRow / levRowAux, mirroring the three-way
min of the source: substitution (diagonal), insertion (left), deletion (up). -/

/-- One inner-loop pass of the source's matrix fill: given the remaining
characters of a, the suffix of the previous row starting at the diagonal
cell, and the cell just computed to the left, produce the remaining cells of
the current row. -/
def levRowAux (bc : Char) : Str → List Nat → Nat → List Nat
  | [], _, _ => []
  | _ :: _, [], _ => []
  | ac :: as, diag :: pvRest, left =>
      let up := pvRest.headD 0
      let cur := if bc = ac then diag else min (diag + 1) (min (left + 1) (up + 1))
      cur :: levRowAux bc as pvRest cur

/-- One outer-loop pass: from the previous full row, the next full row.
The leading cell is matrix[i][0] = i = previous leading cell + 1. -/
def levRow (bc : Char) (a : Str) (prev : List Nat) : List Nat :=
  match prev with
  | [] => []
  | p0 :: _ => (p0 + 1) :: levRowAux bc a prev (p0 + 1)

/-- levenshtein from src/background.js: JS-falsy guard on empty inputs, then
lower-casing and the dynamic-programming matrix; the result is the last cell
of the last row. -/
def levenshtein (a b : Str) : Nat :=
  if a = [] ∨ b = [] then
    if a = [] ∧ b = [] then 0 else max a.length b.length
  else
    let a' := strLower a
    let b' := strLower b
    (b'.foldl (fun prev bc => levRow bc a' prev) (List.range (a'.length + 1))).getLastD 0

/-- The row of edit distances from the extensions of q by prefixes of the
third argument, to p: the contents of one DP row. -/
def suffRow (p q : Str) : Str → List Nat
  | [] => [editDist q p]
  | ac :: as => editDist q p :: suffRow p (q ++ [ac]) as

/-! ## 4.2 LinkDeceptionAnalyzer

Shallow embedding of analyzeUrlDeception from the content script.  The two
platform builtins it uses are passed as parameters:
 - hostOf s models: the hostname of new URL(s), lower-cased, or none when
   URL parsing throws;
 - urlTokens t models: t.match(urlLikeRegex) with a null match as []. -/

/-- One hyperlink as observed in rendered content. -/
structure LinkRecord where
  href : Str
  text : Str
deriving DecidableEq

/-- One flagged link, as pushed onto suspiciousLinks. -/
structure SuspiciousLink where
  index : Nat
  href : Str
  text : Str
  reason : Str
  indicators : List Str
deriving DecidableEq

/-- The verdict object returned by analyzeUrlDeception. -/
structure DeceptionResult where
  suspiciousLinks : List SuspiciousLink
  threatLevel : Str
  analyzed : Nat
deriving DecidableEq

def shorteners : List Str :=
  ["bit.ly".toList, "tinyurl.com".toList, "goo.gl".toList, "ow.ly".toList,
   "t.co".toList, "short.url".toList, "is.gd".toList, "buff.ly".toList, "tiny.one".toList]

def knownBad : List Str :=
  ["malware.example".toList, "badware.test".toList, "phishingsite.test".toList]

def authPatterns : List Str :=
  ["login-".toList, "secure-".toList, "verify-".toList, "account-".toList, "signin-".toList]

def mismatchTag : Str := "text-URL mismatch (visible plaintext differs from href)".toList
def shortenerTag : Str := "URL shortener detected".toList
def knownBadTag : Str := "known malicious domain".toList
def authTag : Str := "suspicious auth-related subdomain pattern".toList
def httpTag : Str := "uses http (not https)".toList

/-- The per-link indicator computation of analyzeUrlDeception, in source
order: text-URL mismatch, shortener, known-bad, auth-subdomain pattern,
plain-http prefix.  A failed hostname parse leaves hrefHostname empty. -/
def linkIndicators (hostOf : Str → Option Str) (urlTokens : Str → List Str)
    (l : LinkRecord) : List Str :=
  let hrefHostname := (hostOf l.href).getD []
  let mismatch :=
    match urlTokens l.text with
    | [] => []
    | visible :: _ =>
        let visibleHost :=
          (hostOf (if strStartsWith visible "http".toList then visible
                   else "http://".toList ++ visible)).getD []
        if visibleHost ≠ [] ∧ hrefHostname ≠ [] ∧ visibleHost ≠ hrefHostname
        then [mismatchTag] else []
  let short :=
    if hrefHostname ≠ [] ∧ shorteners.any (fun s => strContains hrefHostname s)
    then [shortenerTag] else []
  let bad :=
    if hrefHostname ≠ [] ∧ knownBad.any (fun b => strContains hrefHostname b)
    then [knownBadTag] else []
  let auth :=
    if authPatterns.any (fun p => strContains hrefHostname p)
    then [authTag] else []
  let httpi :=
    if l.href ≠ [] ∧ strStartsWith l.href "http://".toList
    then [httpTag] else []
  mismatch ++ short ++ bad ++ auth ++ httpi

/-- The loop of analyzeUrlDeception: a link becomes a SuspiciousLink exactly
when its indicator list is non-empty; reason is the indicators joined with
"; ". -/
def collectSuspicious (hostOf : Str → Option Str) (urlTokens : Str → List Str) :
    Nat → List LinkRecord → List SuspiciousLink
  | _, [] => []
  | i, l :: ls =>
      let inds := linkIndicators hostOf urlTokens l
      (if inds = [] then []
       else [{ index := i, href := l.href, text := l.text,
               reason := strJoin "; ".toList inds, indicators := inds }]) ++
      collectSuspicious hostOf urlTokens (i + 1) ls

/-- The scoring heuristics of analyzeUrlDeception. -/
def scoreLinks (suspiciousLinks : List SuspiciousLink) : Str :=
  if 2 ≤ suspiciousLinks.length then "danger".toList
  else
    match suspiciousLinks with
    | first :: _ =>
        if first.indicators.contains knownBadTag ∨
           first.indicators.contains shortenerTag ∨
           first.indicators.contains mismatchTag
        then "danger".toList else "warning".toList
    | [] => "safe".toList

/-- analyzeUrlDeception from the content script (spec name: analyzeLinks). -/
def analyzeUrlDeception (hostOf : Str → Option Str) (urlTokens : Str → List Str)
    (links : List LinkRecord) : DeceptionResult :=
  let suspiciousLinks := collectSuspicious hostOf urlTokens 0 links
  { suspiciousLinks := suspiciousLinks
    threatLevel := scoreLinks suspiciousLinks
    analyzed := links.length }

/-! ## 4.3 BrandSpoofAnalyzer

Shallow embedding of analyzeInboxLocally from src/background.js (spec name:
analyzeThreads). -/

/-- One inbox entry, projected to the two fields the analyzer reads. -/
structure ThreadRecord where
  sender : Str
  subject : Str
deriving DecidableEq

/-- One flagged inbox entry. -/
structure ThreadFinding where
  index : Nat
  sender : Str
  subject : Str
  reason : Str
  indicators : List Str
deriving DecidableEq

/-- The verdict object returned by analyzeInboxLocally. -/
structure ThreadVerdict where
  level : Str
  detail : Str
  findings : List ThreadFinding
deriving DecidableEq

def knownBrands : List Str :=
  ["microsoft".toList, "google".toList, "amazon".toList, "paypal".toList,
   "apple".toList, "facebook".toList, "bank".toList, "chase".toList,
   "bankofamerica".toList, "stripe".toList, "github".toList]

def suspiciousTLDs : List Str :=
  [".tk".toList, ".ru".toList, ".ml".toList, ".ga".toList, ".cf".toList,
   ".biz".toList, ".info".toList]

def suspiciousTldTag : Str := "suspicious-tld".toList
def typosquattingTag : Str := "typosquatting".toList

/-- Characters kept by the token class [a-z0-9] of the source's split and
replace regexes. -/
def isTokenChar (c : Char) : Bool :=
  ('a' ≤ c ∧ c ≤ 'z') ∨ ('0' ≤ c ∧ c ≤ '9')

/-- sender.match(/@([^\s>]+)/): the run of non-whitespace non-'>' characters
after the first '@' that is followed by at least one such character; empty
when there is no match. -/
def senderDomain : Str → Str
  | [] => []
  | c :: rest =>
      if c = '@' then
        let run := rest.takeWhile (fun ch => !(ch.isWhitespace || ch == '>'))
        if run = [] then senderDomain rest else run
      else senderDomain rest

/-- split(/[^a-z0-9]+/).filter(Boolean): the maximal non-empty runs of
token characters. -/
def tokenizeAux : Str → Str → List Str
  | cur, [] => if cur = [] then [] else [cur.reverse]
  | cur, c :: rest =>
      if isTokenChar c then tokenizeAux (c :: cur) rest
      else if cur = [] then tokenizeAux [] rest
      else cur.reverse :: tokenizeAux [] rest

def tokenize (s : Str) : List Str := tokenizeAux [] s

/-- Heuristic 1 of analyzeInboxLocally: first suspicious TLD the (non-empty)
domain ends with, if any (the source breaks out of the loop after the first
match). -/
def tldFindings (i : Nat) (t : ThreadRecord) (domain : Str) : List ThreadFinding :=
  if domain = [] then []
  else
    match suspiciousTLDs.find? (fun tld => strEndsWith domain tld) with
    | some tld =>
        [{ index := i, sender := t.sender, subject := t.subject,
           reason := "Sender domain uses suspicious TLD (".toList ++ tld ++ ")".toList,
           indicators := [suspiciousTldTag] }]
    | none => []

/-- Heuristic 2 of analyzeInboxLocally: every (token, brand) pair of lengths
at least 4 whose edit distance d satisfies 0 < d and
d ≤ max(1, floor(brand.length * 0.2)) produces one finding.  For the lengths
4..13 of the fixed brand list, the floating-point floor(len * 0.2) of the
source equals natural division len * 2 / 10 used here. -/
def typoFindings (i : Nat) (t : ThreadRecord) (tokens : List Str) : List ThreadFinding :=
  tokens.flatMap fun token =>
    knownBrands.filterMap fun brand =>
      if brand.length < 4 ∨ token.length < 4 then none
      else
        let dist := levenshtein (token.filter isTokenChar) brand
        if 0 < dist ∧ dist ≤ max 1 (brand.length * 2 / 10) then
          some { index := i, sender := t.sender, subject := t.subject,
                 reason := "Possible typosquatting: \"".toList ++ token ++
                   "\" ≈ \"".toList ++ brand ++ "\" (distance ".toList ++
                   natToStr dist ++ ")".toList,
                 indicators := [typosquattingTag, "similar-to-".toList ++ brand] }
        else none

/-- The loop of analyzeInboxLocally: per record, the suspicious-TLD check
then the typosquatting check, walking the input sequentially. -/
def collectThread : Nat → List ThreadRecord → List ThreadFinding
  | _, [] => []
  | i, t :: ts =>
      let sender := strLower t.sender
      let subject := strLower t.subject
      let domain := strLower (senderDomain sender)
      let tokens := tokenize (sender ++ " ".toList ++ subject)
      tldFindings i t domain ++ typoFindings i t tokens ++ collectThread (i + 1) ts

/-- analyzeInboxLocally from src/background.js (spec name: analyzeThreads). -/
def analyzeInboxLocally (threads : List ThreadRecord) : ThreadVerdict :=
  let findings := collectThread 0 threads
  if findings = [] then
    { level := "safe".toList, detail := "Checks out! ✅".toList, findings := [] }
  else
    let strong := findings.any fun f =>
      f.indicators.contains suspiciousTldTag || f.indicators.contains typosquattingTag
    let level := if strong then "danger".toList else "warning".toList
    let detail :=
      if level = "danger".toList then
        "🚨 ".toList ++ natToStr findings.length ++ " suspicious item(s) detected".toList
      else
        "⚠️ ".toList ++ natToStr findings.length ++ " potentially suspicious item(s) detected".toList
    { level := level, detail := detail, findings := findings }

/-! ## 4.4 ResponseNormalizer

Shallow embedding of parseAIResponse from src/prompt-templates.js.  The
JSON.parse builtin is passed as a parameter jparse (none models a thrown
SyntaxError); the result type J of a successful parse is abstract. -/

def lbrace : Char := Char.ofNat 123
def rbrace : Char := Char.ofNat 125

/-- response.match(/\x7b[\s\S]*\x7d/): the segment from the first opening
brace through the last closing brace, when a closing brace occurs after the
first opening brace; none otherwise (greedy match over every character). -/
def extractBraceBlock (s : Str) : Option Str :=
  let s2 := s.dropWhile (fun c => !(c == lbrace))
  if s2 = [] then none
  else
    let r := s2.reverse.dropWhile (fun c => !(c == rbrace))
    if r = [] then none else some r.reverse

/-- Result of parseAIResponse: a parsed object, or the tagged error object
carrying the fixed message and the original raw text. -/
inductive ParseResult (J : Type) where
  | ok (value : J)
  | error (message : Str) (raw : Str)
deriving DecidableEq

/-- parseAIResponse from src/prompt-templates.js: try the extracted brace
block first, else the entire response; any parse failure is caught and
returns the tagged error object. -/
def parseAIResponse {J : Type} (jparse : Str → Option J) (response : Str) :
    ParseResult J :=
  match extractBraceBlock response with
  | some block =>
      match jparse block with
      | some v => ParseResult.ok v
      | none => ParseResult.error "Could not parse AI response".toList response
  | none =>
      match jparse response with
      | some v => ParseResult.ok v
      | none => ParseResult.error "Could not parse AI response".toList response

/-! ## 4.5 HybridThreatDecision

Shallow embedding of the SCAN_INBOX_THREATS handler of src/background.js,
from the point where the date-filtered thread list is available.  The
sendPrompt collaborator is a parameter returning none when the remote call
rejects (the handler catches the rejection and keeps null). -/

/-- The dynamic object produced by JSON.parse on the handler's expected
schema: each optional field is none when absent. -/
structure AIInboxParsed where
  threat_level : Option Str
  threatLevel : Option Str
  level : Option Str
  overall_assessment : Option Str
  suspicious_items : Option (List ThreadFinding)
  items : Option (List ThreadFinding)
deriving DecidableEq

/-- JS a || b for string-valued fields: empty and absent are falsy. -/
def jsOrStr (a b : Option Str) : Option Str :=
  match a with
  | some s => if s = [] then b else some s
  | none => b

/-- Lines 112-116 of src/background.js: normalization of the parsed AI
object into the verdict shape (arrays are always truthy in JS, so a present
empty suspicious_items wins over items). -/
def normalizeParsedInbox (p : AIInboxParsed) : ThreadVerdict :=
  let lvl := (jsOrStr (jsOrStr p.threat_level (jsOrStr p.threatLevel p.level))
               (some "safe".toList)).getD "safe".toList
  let fallbackDetail :=
    match p.suspicious_items with
    | some l =>
        if l.length ≠ 0 then
          "Found ".toList ++ natToStr l.length ++ " suspicious item(s)".toList
        else "Checks out! ✅".toList
    | none => "Checks out! ✅".toList
  let detail :=
    match p.overall_assessment with
    | some s => if s = [] then fallbackDetail else s
    | none => fallbackDetail
  let items :=
    match p.suspicious_items with
    | some l => l
    | none => p.items.getD []
  let levelOut :=
    if lvl = "danger".toList then "danger".toList
    else if lvl = "warning".toList then "warning".toList
    else "safe".toList
  { level := levelOut, detail := detail, findings := items }

/-- The fixed SYSTEM instruction text of the SCAN_INBOX_THREATS handler. -/
def inboxThreatsSystem : Str :=
  ("You are a cybersecurity expert. Analyze the following recent email senders and subjects and identify any suspicious or likely malicious items. Look for typosquatting (e.g. \x27rnicrosft\x27 for \x27microsoft\x27), odd domains in sender addresses, repeated misspellings, or clearly fraudulent subjects. Output JSON only with these fields:\n\x7b\n  \"threat_level\": \"safe\" | \"warning\" | \"danger\",\n  \"confidence\": 0.0 to 1.0,\n  \"suspicious_items\": [\n    \x7b\n      \"index\": number,\n      \"sender\": \"\",\n      \"subject\": \"\",\n      \"reason\": \"\",\n      \"indicators\": [\"...\"]\n    \x7d\n  ],\n  \"overall_assessment\": \"\"\n\x7d").toList

/-- The itemized sender/subject data block of the handler's prompt. -/
def inboxItemsText (filtered : List ThreadRecord) : Str :=
  strJoin "\n".toList (filtered.mapIdx fun i t =>
    "Item ".toList ++ natToStr (i + 1) ++ ": Sender: \"".toList ++ t.sender ++
    "\" Subject: \"".toList ++ t.subject ++ "\"".toList)

/-- The full prompt sent by the SCAN_INBOX_THREATS handler. -/
def inboxThreatsPromptText (filtered : List ThreadRecord) : Str :=
  inboxThreatsSystem ++ "\n\nInbox items (last 7 days):\n".toList ++
    inboxItemsText filtered ++ "\n\nOutput (JSON only):".toList

/-- The SCAN_INBOX_THREATS handler of src/background.js from the point where
the filtered thread list exists (spec name: classifyThreadsHybrid): one
remote attempt, parse, and deterministic fallback to analyzeInboxLocally
when there is no usable response or parsing failed.  In this total model
the handler's try/catch around response formatting has no throwing path. -/
def scanInboxThreats (jparse : Str → Option AIInboxParsed)
    (submitPrompt : Str → Option Str) (filtered : List ThreadRecord) :
    ThreadVerdict :=
  match submitPrompt (inboxThreatsPromptText filtered) with
  | none => analyzeInboxLocally filtered
  | some llmResp =>
      if strTrim llmResp = [] then analyzeInboxLocally filtered
      else
        match parseAIResponse jparse llmResp with
        | ParseResult.error _ _ => analyzeInboxLocally filtered
        | ParseResult.ok parsed => normalizeParsedInbox parsed

/-- The parsed object for a remote link classification, per the prompt
contract of generateThreatAnalysisPrompt (src/prompt-templates.js). -/
structure AILinksParsed where
  threat_level : Option Str
  suspicious_links : Option (List SuspiciousLink)
  overall_assessment : Option Str
deriving DecidableEq

/-- The itemized link data block of generateThreatAnalysisPrompt
(src/prompt-templates.js). -/
def linksPromptText (links : List LinkRecord) : Str :=
  strJoin "\n".toList (links.mapIdx fun i l =>
    "Link ".toList ++ natToStr (i + 1) ++ ": text=\"".toList ++ l.text ++
    "\" href=\"".toList ++ l.href ++ "\"".toList)

/-- Modelled from the spec: classifyLinksHybrid (§4.5, §6).  The repository
has no hybrid classifier for links under src — the remote path exists only
for the inbox-threat scan — so this definition follows the spec's words:
build the task-specific prompt (the data block is the one of
generateThreatAnalysisPrompt, whose fixed instruction text is irrelevant
here), attempt one remote classification, normalize per §4.4, and fall back
to the deterministic local analyzer (§4.2) with its verdict unmodified when
the attempt rejects or normalization fails. -/
def classifyLinksHybrid (jparse : Str → Option AILinksParsed)
    (hostOf : Str → Option Str) (urlTokens : Str → List Str)
    (submitPrompt : Str → Option Str) (links : List LinkRecord) :
    DeceptionResult :=
  match submitPrompt (linksPromptText links) with
  | none => analyzeUrlDeception hostOf urlTokens links
  | some resp =>
      match parseAIResponse jparse resp with
      | ParseResult.error _ _ => analyzeUrlDeception hostOf urlTokens links
      | ParseResult.ok p =>
          { suspiciousLinks := p.suspicious_links.getD []
            threatLevel :=
              match jsOrStr p.threat_level none with
              | some l =>
                  if l = "danger".toList then "danger".toList
                  else if l = "warning".toList then "warning".toList
                  else "safe".toList
              | none => "safe".toList
            analyzed := links.length }

/-- The link aggregate scoring policy as the specification words it, for
comparison with the implementation's scoreLinks: two or more Findings give
danger; exactly one gives danger when its indicators include known-malicious,
shortener or text-URL-mismatch and warning otherwise; zero give safe. -/
def scoreSpecLinks (findings : List SuspiciousLink) : Str :=
  match findings with
  | [] => "safe".toList
  | [f] =>
      if f.indicators.contains knownBadTag ∨ f.indicators.contains shortenerTag ∨
         f.indicators.contains mismatchTag
      then "danger".toList else "warning".toList
  | _ :: _ :: _ => "danger".toList

/-! ## Proof development -/

theorem editDist_nil_left (ys : Str) : editDist [] ys = ys.length := by
  rw [editDist]

theorem editDist_nil_right (xs : Str) : editDist xs [] = xs.length := by
  cases xs with
  | nil => rw [editDist_nil_left]
  | cons a as => rw [editDist]

theorem editDist_cons_cons (x y : Char) (xs ys : Str) :
    editDist (x :: xs) (y :: ys) =
      if x = y then editDist xs ys
      else 1 + min (editDist xs ys) (min (editDist (x :: xs) ys) (editDist xs (y :: ys))) := by
  rw [editDist]

theorem editDist_self (xs : Str) : editDist xs xs = 0 := by
  induction xs with
  | nil => simp [editDist_nil_left]
  | cons x xs ih => rw [editDist_cons_cons, if_pos rfl, ih]

theorem editDist_comm : ∀ (xs ys : Str), editDist xs ys = editDist ys xs
  | [], ys => by rw [editDist_nil_left, editDist_nil_right]
  | x :: xs, [] => by rw [editDist_nil_left, editDist_nil_right]
  | x :: xs, y :: ys => by
      rw [editDist_cons_cons, editDist_cons_cons,
        editDist_comm xs ys, editDist_comm (x :: xs) ys, editDist_comm xs (y :: ys)]
      rcases eq_or_ne x y with h | h
      · rw [if_pos h, if_pos h.symm]
      · rw [if_neg h, if_neg (Ne.symm h)]
        omega
termination_by xs ys => xs.length + ys.length

/-- Adding or removing one leading character changes the distance by at most one
(both directions, proved simultaneously by strong induction on total length). -/
theorem editDist_cons_bounds :
    ∀ (n : Nat) (xs ys : Str), xs.length + ys.length ≤ n →
      (∀ c, editDist (c :: xs) ys ≤ editDist xs ys + 1) ∧
      (∀ c, editDist xs ys ≤ editDist (c :: xs) ys + 1) := by
  intro n
  induction n with
  | zero =>
      intro xs ys h
      have hx : xs = [] := by
        cases xs with
        | nil => rfl
        | cons a as => simp at h
      have hy : ys = [] := by
        cases ys with
        | nil => rfl
        | cons a as => simp [hx] at h
      subst hx; subst hy
      constructor <;> intro c <;>
        simp [editDist_nil_left, editDist_nil_right]
  | succ n ih =>
      intro xs ys h
      constructor
      · intro c
        cases ys with
        | nil =>
            rw [editDist_nil_right, editDist_nil_right]
            simp
        | cons y ys' =>
            rw [editDist_cons_cons]
            rcases eq_or_ne c y with hcy | hcy
            · rw [if_pos hcy]
              -- need: editDist xs ys' ≤ editDist xs (y :: ys') + 1
              have hsz : ys'.length + xs.length ≤ n := by
                simp at h; omega
              have := ((ih ys' xs hsz).2 y)
              rw [editDist_comm ys' xs, editDist_comm (y :: ys') xs] at this
              omega
            · rw [if_neg hcy]
              have h3 : min (editDist xs ys') (min (editDist (c :: xs) ys') (editDist xs (y :: ys'))) ≤ editDist xs (y :: ys') := by
                refine le_trans (min_le_right _ _) (min_le_right _ _)
              omega
      · intro c
        cases ys with
        | nil =>
            rw [editDist_nil_right, editDist_nil_right]
            simp; omega
        | cons y ys' =>
            rw [editDist_cons_cons c y xs ys']
            rcases eq_or_ne c y with hcy | hcy
            · rw [if_pos hcy]
              -- need: editDist xs (y :: ys') ≤ editDist xs ys' + 1
              have hsz : ys'.length + xs.length ≤ n := by
                simp at h; omega
              have := ((ih ys' xs hsz).1 y)
              rw [editDist_comm (y :: ys') xs] at this
              rw [editDist_comm ys' xs] at this
              omega
            · rw [if_neg hcy]
              have hsz : ys'.length + xs.length ≤ n := by
                simp at h; omega
              -- editDist xs (y :: ys') ≤ editDist xs ys' + 1
              have hB := (ih ys' xs hsz).1 y
              rw [editDist_comm (y :: ys') xs, editDist_comm ys' xs] at hB
              -- editDist xs ys' ≤ editDist (c :: xs) ys' + 1
              have hsz2 : xs.length + ys'.length ≤ n := by
                simp at h; omega
              have hA := (ih xs ys' hsz2).2 c
              omega

theorem editDist_cons_left_le (c : Char) (xs ys : Str) :
    editDist (c :: xs) ys ≤ editDist xs ys + 1 :=
  (editDist_cons_bounds (xs.length + ys.length) xs ys le_rfl).1 c

theorem editDist_cons_right_le (c : Char) (xs ys : Str) :
    editDist xs (c :: ys) ≤ editDist xs ys + 1 := by
  have := editDist_cons_left_le c ys xs
  rw [editDist_comm ys xs] at this
  rw [editDist_comm xs (c :: ys)]
  exact this

theorem editSeq_nil_ins (ys : Str) : EditSeq [] ys ys.length := by
  induction ys with
  | nil => exact EditSeq.nil
  | cons y ys ih => exact EditSeq.ins y ih

theorem editSeq_del_nil (xs : Str) : EditSeq xs [] xs.length := by
  induction xs with
  | nil => exact EditSeq.nil
  | cons x xs ih => exact EditSeq.del x ih

/-- The edit distance is achieved by some edit script. -/
theorem editSeq_achieve : ∀ (xs ys : Str), EditSeq xs ys (editDist xs ys)
  | [], ys => by rw [editDist_nil_left]; exact editSeq_nil_ins ys
  | x :: xs, [] => by rw [editDist_nil_right]; exact editSeq_del_nil (x :: xs)
  | x :: xs, y :: ys => by
      rw [editDist_cons_cons]
      rcases eq_or_ne x y with h | h
      · rw [if_pos h]; subst h
        exact EditSeq.keep x (editSeq_achieve xs ys)
      · rw [if_neg h]
        rcases Nat.le_total (editDist xs ys) (min (editDist (x :: xs) ys) (editDist xs (y :: ys))) with h1 | h1
        · rw [Nat.min_eq_left h1, Nat.add_comm]
          exact EditSeq.subst x y (editSeq_achieve xs ys)
        · rw [Nat.min_eq_right h1]
          rcases Nat.le_total (editDist (x :: xs) ys) (editDist xs (y :: ys)) with h2 | h2
          · rw [Nat.min_eq_left h2, Nat.add_comm]
            exact EditSeq.ins y (editSeq_achieve (x :: xs) ys)
          · rw [Nat.min_eq_right h2, Nat.add_comm]
            exact EditSeq.del x (editSeq_achieve xs (y :: ys))
termination_by xs ys => xs.length + ys.length

/-- The edit distance is a lower bound on the cost of every edit script. -/
theorem editSeq_min {xs ys : Str} {n : Nat} (h : EditSeq xs ys n) :
    editDist xs ys ≤ n := by
  induction h with
  | nil => rw [editDist_nil_left]; exact Nat.le_refl 0
  | keep c h ih =>
      rw [editDist_cons_cons, if_pos rfl]; exact ih
  | subst c d h ih =>
      rw [editDist_cons_cons]
      rcases eq_or_ne c d with hcd | hcd
      · rw [if_pos hcd]; omega
      · rw [if_neg hcd]
        omega
  | @del c xs' ys' m h ih =>
      have := editDist_cons_left_le c xs' ys'
      omega
  | @ins d xs' ys' m h ih =>
      have := editDist_cons_right_le d xs' ys'
      omega

theorem editSeq_append {a b a' b' : Str} {n m : Nat}
    (h : EditSeq a b n) (h' : EditSeq a' b' m) :
    EditSeq (a ++ a') (b ++ b') (n + m) := by
  induction h with
  | nil => simpa using h'
  | keep c h ih => exact EditSeq.keep c ih
  | subst c d h ih =>
      have := EditSeq.subst c d ih
      simpa [Nat.add_right_comm] using this
  | del c h ih =>
      have := EditSeq.del c ih
      simpa [Nat.add_right_comm] using this
  | ins d h ih =>
      have := EditSeq.ins d ih
      simpa [Nat.add_right_comm] using this

theorem editSeq_reverse {a b : Str} {n : Nat} (h : EditSeq a b n) :
    EditSeq a.reverse b.reverse n := by
  induction h with
  | nil => exact EditSeq.nil
  | keep c h ih =>
      have := editSeq_append ih (EditSeq.keep c EditSeq.nil)
      simpa using this
  | subst c d h ih =>
      have := editSeq_append ih (EditSeq.subst c d EditSeq.nil)
      simpa using this
  | del c h ih =>
      have := editSeq_append ih (EditSeq.del c EditSeq.nil)
      simpa using this
  | ins d h ih =>
      have := editSeq_append ih (EditSeq.ins d EditSeq.nil)
      simpa using this

theorem editDist_reverse (a b : Str) :
    editDist a.reverse b.reverse = editDist a b := by
  apply Nat.le_antisymm
  · exact editSeq_min (editSeq_reverse (editSeq_achieve a b))
  · have := editSeq_min (editSeq_reverse (editSeq_achieve a.reverse b.reverse))
    simpa using this

/-- The recurrence of editDist transported to the last characters: this is
the cell update performed by the dynamic-programming matrix. -/
theorem editDist_append_single (q p : Str) (ac bc : Char) :
    editDist (q ++ [ac]) (p ++ [bc]) =
      if ac = bc then editDist q p
      else 1 + min (editDist q p) (min (editDist (q ++ [ac]) p) (editDist q (p ++ [bc]))) := by
  have h1 : editDist (q ++ [ac]) (p ++ [bc]) = editDist (ac :: q.reverse) (bc :: p.reverse) := by
    rw [← editDist_reverse (q ++ [ac]) (p ++ [bc])]
    simp
  have h2 : editDist (q ++ [ac]) p = editDist (ac :: q.reverse) p.reverse := by
    rw [← editDist_reverse (q ++ [ac]) p]
    simp
  have h3 : editDist q (p ++ [bc]) = editDist q.reverse (bc :: p.reverse) := by
    rw [← editDist_reverse q (p ++ [bc])]
    simp
  have h4 : editDist q p = editDist q.reverse p.reverse := by
    rw [← editDist_reverse q p]
  rw [h1, h2, h3, h4, editDist_cons_cons]

theorem suffRow_expose (p q : Str) (xs : Str) :
    suffRow p q xs = editDist q p :: (suffRow p q xs).tail := by
  cases xs <;> simp [suffRow]

theorem suffRow_getLastD (p : Str) :
    ∀ (xs q : Str) (d : Nat), (suffRow p q xs).getLastD d = editDist (q ++ xs) p := by
  intro xs
  induction xs with
  | nil => intro q d; rw [suffRow]; simp
  | cons ac as ih =>
      intro q d
      rw [suffRow, List.getLastD_cons, ih (q ++ [ac])]
      simp

theorem levRowAux_spec (bc : Char) (p : Str) :
    ∀ (xs q : Str),
      levRowAux bc xs (suffRow p q xs) (editDist q (p ++ [bc])) =
        (suffRow (p ++ [bc]) q xs).tail := by
  intro xs
  induction xs with
  | nil => intro q; simp [suffRow, levRowAux]
  | cons ac as ih =>
      intro q
      have hup : (suffRow p (q ++ [ac]) as).headD 0 = editDist (q ++ [ac]) p := by
        rw [suffRow_expose]; rfl
      have hcur :
          (if bc = ac then editDist q p
            else min (editDist q p + 1)
              (min (editDist q (p ++ [bc]) + 1) (editDist (q ++ [ac]) p + 1))) =
          editDist (q ++ [ac]) (p ++ [bc]) := by
        rw [editDist_append_single]
        rcases eq_or_ne ac bc with h | h
        · rw [if_pos h, if_pos h.symm]
        · rw [if_neg h, if_neg (Ne.symm h)]
          omega
      have hrhs : (suffRow (p ++ [bc]) q (ac :: as)).tail = suffRow (p ++ [bc]) (q ++ [ac]) as := by
        rw [suffRow, List.tail_cons]
      rw [suffRow]
      simp only [levRowAux, hup]
      rw [hcur, ih (q ++ [ac]), hrhs]
      exact (suffRow_expose (p ++ [bc]) (q ++ [ac]) as).symm

theorem levRow_spec (bc : Char) (a p : Str) :
    levRow bc a (suffRow p [] a) = suffRow (p ++ [bc]) [] a := by
  rw [suffRow_expose p [] a, levRow]
  have h0 : editDist [] p + 1 = editDist [] (p ++ [bc]) := by
    rw [editDist_nil_left, editDist_nil_left]; simp
  rw [← suffRow_expose p [] a]
  have := levRowAux_spec bc p a []
  rw [← h0] at this
  rw [this, h0, ← suffRow_expose (p ++ [bc]) [] a]

theorem levFold_spec (a : Str) :
    ∀ (bs p : Str),
      List.foldl (fun prev bc => levRow bc a prev) (suffRow p [] a) bs =
        suffRow (p ++ bs) [] a := by
  intro bs
  induction bs with
  | nil => intro p; simp
  | cons bc bs ih =>
      intro p
      rw [List.foldl_cons, levRow_spec, ih (p ++ [bc])]
      simp

theorem suffRow_nil_eq_range :
    ∀ (a q : Str), suffRow [] q a = (List.range (a.length + 1)).map (fun j => j + q.length) := by
  intro a
  induction a with
  | nil =>
      intro q
      rw [suffRow, editDist_nil_right]
      simp [List.range_succ]
  | cons ac as ih =>
      intro q
      rw [suffRow, editDist_nil_right, ih (q ++ [ac])]
      conv_rhs => rw [List.range_succ_eq_map]
      rw [List.map_cons, List.map_map]
      congr 1
      · simp
      · apply List.map_congr_left
        intro j hj
        simp [Function.comp]
        omega

/-- Implementation correctness of the source's levenshtein: it computes the
classic edit distance of the lower-cased inputs. -/
theorem levenshtein_eq_editDist (a b : Str) :
    levenshtein a b = editDist (strLower a) (strLower b) := by
  rw [levenshtein]
  rcases eq_or_ne a [] with ha | ha
  · subst ha
    rcases eq_or_ne b [] with hb | hb
    · subst hb; simp [strLower, editDist_nil_left]
    · rw [if_pos (Or.inl rfl)]
      rw [if_neg (by simp [hb])]
      simp [strLower, editDist_nil_left]
  · rcases eq_or_ne b [] with hb | hb
    · subst hb
      rw [if_pos (Or.inr rfl)]
      rw [if_neg (by simp [ha])]
      simp [strLower, editDist_nil_right]
    · rw [if_neg (by simp [ha, hb])]
      have hinit : List.range ((strLower a).length + 1) = suffRow [] [] (strLower a) := by
        rw [suffRow_nil_eq_range]
        simp
      simp only [hinit]
      have hfold := levFold_spec (strLower a) (strLower b) []
      simp only [List.nil_append] at hfold
      rw [hfold, suffRow_getLastD]
      simp

/-! ## Claim theorems -/

/-- C4: for all strings a and b, the source's levenshtein computes the
classic Levenshtein edit distance (the least cost of an edit script of
single-character insertions, deletions and substitutions, equivalently the
textbook recurrence editDist) of the lower-cased inputs; consequently
distance is zero on equal inputs, symmetric, 0 on two empty strings, the
length of b against an empty string, and 0 on "Microsoft" vs "microsoft". -/
theorem distance_classic_levenshtein (a b : Str) :
    levenshtein a b = editDist (strLower a) (strLower b) ∧
    IsLeast {n : Nat | EditSeq (strLower a) (strLower b) n} (levenshtein a b) ∧
    levenshtein a a = 0 ∧
    levenshtein a b = levenshtein b a ∧
    levenshtein [] [] = 0 ∧
    levenshtein [] b = b.length ∧
    levenshtein "Microsoft".toList "microsoft".toList = 0 := by
  refine ⟨levenshtein_eq_editDist a b, ⟨?_, ?_⟩, ?_, ?_, ?_, ?_, ?_⟩
  · show EditSeq _ _ (levenshtein a b)
    rw [levenshtein_eq_editDist]
    exact editSeq_achieve _ _
  · intro n hn
    rw [levenshtein_eq_editDist]
    exact editSeq_min hn
  · rw [levenshtein_eq_editDist]
    exact editDist_self _
  · rw [levenshtein_eq_editDist, levenshtein_eq_editDist]
    exact editDist_comm _ _
  · decide
  · rw [levenshtein_eq_editDist]
    simp [strLower, editDist_nil_left]
  · decide

/-- C2: the aggregate verdict of the link analyzer follows the stated
scoring policy as a function of the produced findings, and the empty input
yields the safe verdict with no findings. -/
theorem link_aggregate_scoring (hostOf : Str → Option Str)
    (urlTokens : Str → List Str) (links : List LinkRecord) :
    (analyzeUrlDeception hostOf urlTokens links).threatLevel =
      scoreSpecLinks (analyzeUrlDeception hostOf urlTokens links).suspiciousLinks ∧
    analyzeUrlDeception hostOf urlTokens [] =
      { suspiciousLinks := [], threatLevel := "safe".toList, analyzed := 0 } := by
  constructor
  · show scoreLinks (collectSuspicious hostOf urlTokens 0 links) =
      scoreSpecLinks (collectSuspicious hostOf urlTokens 0 links)
    generalize collectSuspicious hostOf urlTokens 0 links = s
    match s with
    | [] => rfl
    | [f] => simp [scoreLinks, scoreSpecLinks]
    | f :: g :: t =>
        have h2 : 2 ≤ (f :: g :: t).length := by simp
        simp [scoreLinks, scoreSpecLinks, h2]
  · rfl

/-- C8: the response normalizer is total: for every input text it returns
either a parsed object or exactly the tagged error object carrying the fixed
message and the original text as raw; no other outcome exists. -/
theorem normalizer_error_contract {J : Type} (jparse : Str → Option J)
    (response : Str) :
    (∃ v, parseAIResponse jparse response = ParseResult.ok v) ∨
    parseAIResponse jparse response =
      ParseResult.error "Could not parse AI response".toList response := by
  rcases hb : extractBraceBlock response with _ | block
  · rcases hj : jparse response with _ | v
    · exact Or.inr (by unfold parseAIResponse; rw [hb, hj])
    · exact Or.inl ⟨v, by unfold parseAIResponse; rw [hb, hj]⟩
  · rcases hj : jparse block with _ | v
    · exact Or.inr (by unfold parseAIResponse; rw [hb]; dsimp only; rw [hj])
    · exact Or.inl ⟨v, by unfold parseAIResponse; rw [hb]; dsimp only; rw [hj]⟩

theorem tldFindings_mem {i : Nat} {t : ThreadRecord} {domain : Str}
    {f : ThreadFinding} (h : f ∈ tldFindings i t domain) :
    f.index = i ∧ f.sender = t.sender ∧ f.subject = t.subject ∧
    f.indicators = [suspiciousTldTag] := by
  unfold tldFindings at h
  split at h
  · simp at h
  · split at h
    · simp at h
      subst h
      exact ⟨rfl, rfl, rfl, rfl⟩
    · simp at h

theorem typoFindings_mem {i : Nat} {t : ThreadRecord} {tokens : List Str}
    {f : ThreadFinding} (h : f ∈ typoFindings i t tokens) :
    f.index = i ∧ f.sender = t.sender ∧ f.subject = t.subject ∧
    ∃ brand, f.indicators = [typosquattingTag, "similar-to-".toList ++ brand] := by
  unfold typoFindings at h
  simp only [List.mem_flatMap, List.mem_filterMap] at h
  obtain ⟨token, htok, brand, hbrand, hf⟩ := h
  split at hf
  · simp at hf
  · split at hf
    · rw [Option.some_inj] at hf
      subst hf
      exact ⟨rfl, rfl, rfl, brand, rfl⟩
    · simp at hf

/-- Every finding produced by the thread-analyzer loop records the position
and fields of the record that triggered it and carries one of the two
indicator shapes. -/
theorem collectThread_mem :
    ∀ (i : Nat) (ts : List ThreadRecord) (f : ThreadFinding),
      f ∈ collectThread i ts →
      ∃ j, ∃ hj : j < ts.length, f.index = i + j ∧
        f.sender = (ts.get ⟨j, hj⟩).sender ∧ f.subject = (ts.get ⟨j, hj⟩).subject ∧
        (f.indicators = [suspiciousTldTag] ∨
         ∃ brand, f.indicators = [typosquattingTag, "similar-to-".toList ++ brand]) := by
  intro i ts
  induction ts generalizing i with
  | nil => intro f h; simp [collectThread] at h
  | cons t ts ih =>
      intro f h
      rw [collectThread] at h
      rcases List.mem_append.mp h with h1 | h2
      · rcases List.mem_append.mp h1 with htld | htypo
        · obtain ⟨hidx, hs, hsub, hind⟩ := tldFindings_mem htld
          exact ⟨0, by simp, by omega, hs, hsub, Or.inl hind⟩
        · obtain ⟨hidx, hs, hsub, brand, hind⟩ := typoFindings_mem htypo
          exact ⟨0, by simp, by omega, hs, hsub, Or.inr ⟨brand, hind⟩⟩
      · obtain ⟨j, hj, hidx, hs, hsub, hind⟩ := ih (i + 1) f h2
        refine ⟨j + 1, by simpa using hj, by omega, ?_, ?_, hind⟩
        · simpa using hs
        · simpa using hsub

theorem analyzeInboxLocally_findings (threads : List ThreadRecord) :
    (analyzeInboxLocally threads).findings = collectThread 0 threads := by
  by_cases h : collectThread 0 threads = [] <;> simp [analyzeInboxLocally, h]

theorem analyzeInboxLocally_level (threads : List ThreadRecord) :
    (analyzeInboxLocally threads).level =
      (if collectThread 0 threads = [] then "safe".toList
       else if ((collectThread 0 threads).any fun f =>
           f.indicators.contains suspiciousTldTag ||
           f.indicators.contains typosquattingTag) = true
         then "danger".toList else "warning".toList) := by
  by_cases h : collectThread 0 threads = [] <;> simp [analyzeInboxLocally, h]

/-- C7: any non-empty findings sequence from the thread analyzer yields
level danger (every finding the current checks produce carries
suspicious-tld or typosquatting), and the warning outcome never occurs. -/
theorem thread_aggregation_danger (threads : List ThreadRecord) :
    ((analyzeInboxLocally threads).findings ≠ [] →
      (analyzeInboxLocally threads).level = "danger".toList) ∧
    (analyzeInboxLocally threads).level ≠ "warning".toList := by
  by_cases h : collectThread 0 threads = []
  · constructor
    · intro hne
      rw [analyzeInboxLocally_findings] at hne
      exact absurd h hne
    · rw [analyzeInboxLocally_level, if_pos h]
      decide
  · have hstrong : ((collectThread 0 threads).any fun f =>
        f.indicators.contains suspiciousTldTag ||
        f.indicators.contains typosquattingTag) = true := by
      obtain ⟨f, hf⟩ := List.exists_mem_of_ne_nil _ h
      refine List.any_eq_true.mpr ⟨f, hf, ?_⟩
      obtain ⟨j, hj, _, _, _, hind | ⟨brand, hind⟩⟩ := collectThread_mem 0 threads f hf
      · rw [hind]; decide
      · rw [hind]
        simp [List.contains_cons]
    have hlvl : (analyzeInboxLocally threads).level = "danger".toList := by
      rw [analyzeInboxLocally_level, if_neg h, if_pos hstrong]
    exact ⟨fun _ => hlvl, by rw [hlvl]; decide⟩

/-- C7 witness: a concrete thread with a suspicious TLD produces non-empty
findings, and the scan verdict is danger. -/
theorem thread_aggregation_danger_witness :
    (analyzeInboxLocally [{ sender := "a@evil.tk".toList, subject := [] }]).level =
      "danger".toList :=
  (thread_aggregation_danger [{ sender := "a@evil.tk".toList, subject := [] }]).1
    (by decide)

/-- C1: the fallback guarantee of the hybrid decision layer, stated for any
collaborator every output of which fails normalization — in particular one
that always rejects: the inbox-threat scan returns the verdict of
analyzeInboxLocally on the same filtered items unmodified, and
classifyLinksHybrid returns exactly analyzeUrlDeception on the links. -/
theorem hybrid_fallback (jpT : Str → Option AIInboxParsed)
    (jpL : Str → Option AILinksParsed)
    (hostOf : Str → Option Str) (urlTokens : Str → List Str)
    (submitPrompt : Str → Option Str)
    (filtered : List ThreadRecord) (links : List LinkRecord)
    (hT : ∀ s r, submitPrompt s = some r →
      strTrim r = [] ∨ ∃ m raw, parseAIResponse jpT r = ParseResult.error m raw)
    (hL : ∀ s r, submitPrompt s = some r →
      ∃ m raw, parseAIResponse jpL r = ParseResult.error m raw) :
    scanInboxThreats jpT submitPrompt filtered = analyzeInboxLocally filtered ∧
    classifyLinksHybrid jpL hostOf urlTokens submitPrompt links =
      analyzeUrlDeception hostOf urlTokens links := by
  constructor
  · unfold scanInboxThreats
    rcases hsp : submitPrompt (inboxThreatsPromptText filtered) with _ | r
    · rfl
    · dsimp only
      rcases hT _ _ hsp with htrim | ⟨m, raw, herr⟩
      · rw [if_pos htrim]
      · by_cases htr : strTrim r = []
        · rw [if_pos htr]
        · rw [if_neg htr, herr]
  · unfold classifyLinksHybrid
    rcases hsp : submitPrompt (linksPromptText links) with _ | r
    · rfl
    · dsimp only
      obtain ⟨m, raw, herr⟩ := hL _ _ hsp
      rw [herr]

/-- C1 witness: with a collaborator that always rejects, both hybrid entry
points return the local verdicts on concrete inputs. -/
theorem hybrid_fallback_witness :
    scanInboxThreats (fun _ => none) (fun _ => none)
        [{ sender := "a@evil.tk".toList, subject := [] }] =
      analyzeInboxLocally [{ sender := "a@evil.tk".toList, subject := [] }] ∧
    classifyLinksHybrid (fun _ => none) (fun _ => none) (fun _ => [])
        (fun _ => none) [{ href := "http://x.com".toList, text := "y".toList }] =
      analyzeUrlDeception (fun _ => none) (fun _ => [])
        [{ href := "http://x.com".toList, text := "y".toList }] :=
  hybrid_fallback (fun _ => none) (fun _ => none) (fun _ => none) (fun _ => [])
    (fun _ => none) [{ sender := "a@evil.tk".toList, subject := [] }]
    [{ href := "http://x.com".toList, text := "y".toList }]
    (fun _ _ h => nomatch h) (fun _ _ h => nomatch h)

/-- Every finding produced by the link-analyzer loop records the position
and fields of the link that triggered it. -/
theorem collectSuspicious_mem (hostOf : Str → Option Str)
    (urlTokens : Str → List Str) :
    ∀ (i : Nat) (ls : List LinkRecord) (f : SuspiciousLink),
      f ∈ collectSuspicious hostOf urlTokens i ls →
      ∃ j, ∃ hj : j < ls.length, f.index = i + j ∧
        f.href = (ls.get ⟨j, hj⟩).href ∧ f.text = (ls.get ⟨j, hj⟩).text := by
  intro i ls
  induction ls generalizing i with
  | nil => intro f h; simp [collectSuspicious] at h
  | cons l ls ih =>
      intro f h
      simp only [collectSuspicious] at h
      rcases List.mem_append.mp h with h1 | h2
      · split at h1
        · simp at h1
        · simp at h1
          subst h1
          exact ⟨0, by simp, by simp, rfl, rfl⟩
      · obtain ⟨j, hj, hidx, hh, ht⟩ := ih (i + 1) f h2
        refine ⟨j + 1, by simpa using hj, by omega, ?_, ?_⟩
        · simpa using hh
        · simpa using ht

theorem collectSuspicious_pairwise (hostOf : Str → Option Str)
    (urlTokens : Str → List Str) :
    ∀ (i : Nat) (ls : List LinkRecord),
      (collectSuspicious hostOf urlTokens i ls).Pairwise
        (fun f g => f.index ≤ g.index) := by
  intro i ls
  induction ls generalizing i with
  | nil => simp [collectSuspicious]
  | cons l ls ih =>
      simp only [collectSuspicious]
      apply List.pairwise_append.mpr
      refine ⟨?_, ih (i + 1), ?_⟩
      · split
        · exact List.Pairwise.nil
        · simp
      · intro f hf g hg
        have hfi : f.index = i := by
          split at hf
          · simp at hf
          · simp at hf; subst hf; rfl
        obtain ⟨j, hj, hidx, _, _⟩ := collectSuspicious_mem hostOf urlTokens (i + 1) ls g hg
        omega

theorem collectThread_pairwise :
    ∀ (i : Nat) (ts : List ThreadRecord),
      (collectThread i ts).Pairwise (fun f g => f.index ≤ g.index) := by
  intro i ts
  induction ts generalizing i with
  | nil => simp [collectThread]
  | cons t ts ih =>
      simp only [collectThread]
      apply List.pairwise_append.mpr
      refine ⟨?_, ih (i + 1), ?_⟩
      · apply List.pairwise_of_forall_mem_list
        intro f hf g hg
        rcases List.mem_append.mp hf with hf1 | hf2 <;>
          rcases List.mem_append.mp hg with hg1 | hg2
        · rw [(tldFindings_mem hf1).1, (tldFindings_mem hg1).1]
        · rw [(tldFindings_mem hf1).1, (typoFindings_mem hg2).1]
        · rw [(typoFindings_mem hf2).1, (tldFindings_mem hg1).1]
        · rw [(typoFindings_mem hf2).1, (typoFindings_mem hg2).1]
      · intro f hf g hg
        obtain ⟨j, hj, hidx, _⟩ := collectThread_mem (i + 1) ts g hg
        rcases List.mem_append.mp hf with hf1 | hf2
        · have := (tldFindings_mem hf1).1; omega
        · have := (typoFindings_mem hf2).1; omega

/-- C10: in both local analyzers, every finding's index is a valid position
in the input list and identifies the record that triggered it, and findings
are listed in non-decreasing index order. -/
theorem findings_index_invariant (hostOf : Str → Option Str)
    (urlTokens : Str → List Str) (links : List LinkRecord)
    (threads : List ThreadRecord) :
    (∀ f ∈ (analyzeUrlDeception hostOf urlTokens links).suspiciousLinks,
        ∃ hf : f.index < links.length,
          f.href = (links.get ⟨f.index, hf⟩).href ∧
          f.text = (links.get ⟨f.index, hf⟩).text) ∧
    (analyzeUrlDeception hostOf urlTokens links).suspiciousLinks.Pairwise
      (fun f g => f.index ≤ g.index) ∧
    (∀ f ∈ (analyzeInboxLocally threads).findings,
        ∃ hf : f.index < threads.length,
          f.sender = (threads.get ⟨f.index, hf⟩).sender ∧
          f.subject = (threads.get ⟨f.index, hf⟩).subject) ∧
    (analyzeInboxLocally threads).findings.Pairwise
      (fun f g => f.index ≤ g.index) := by
  refine ⟨?_, ?_, ?_, ?_⟩
  · intro f hf
    obtain ⟨j, hj, hidx, hh, ht⟩ :=
      collectSuspicious_mem hostOf urlTokens 0 links f hf
    have hj2 : f.index = j := by omega
    subst hj2
    exact ⟨hj, hh, ht⟩
  · exact collectSuspicious_pairwise hostOf urlTokens 0 links
  · intro f hf
    rw [analyzeInboxLocally_findings] at hf
    obtain ⟨j, hj, hidx, hs, hsub, _⟩ := collectThread_mem 0 threads f hf
    have hj2 : f.index = j := by omega
    subst hj2
    exact ⟨hj, hs, hsub⟩
  · rw [analyzeInboxLocally_findings]
    exact collectThread_pairwise 0 threads

/-- C10 witness: the suspicious-TLD finding of a concrete one-thread scan
has index 0 and carries the fields of the triggering record. -/
theorem findings_index_invariant_witness :
    ∃ hf : (⟨0, "a@evil.tk".toList, [], "Sender domain uses suspicious TLD (.tk)".toList,
        [suspiciousTldTag]⟩ : ThreadFinding).index <
        ([{ sender := "a@evil.tk".toList, subject := [] }] : List ThreadRecord).length,
      (⟨0, "a@evil.tk".toList, [], "Sender domain uses suspicious TLD (.tk)".toList,
        [suspiciousTldTag]⟩ : ThreadFinding).sender =
        (([{ sender := "a@evil.tk".toList, subject := [] }] : List ThreadRecord).get
          ⟨_, hf⟩).sender ∧
      (⟨0, "a@evil.tk".toList, [], "Sender domain uses suspicious TLD (.tk)".toList,
        [suspiciousTldTag]⟩ : ThreadFinding).subject =
        (([{ sender := "a@evil.tk".toList, subject := [] }] : List ThreadRecord).get
          ⟨_, hf⟩).subject :=
  (findings_index_invariant (fun _ => none) (fun _ => []) []
    [{ sender := "a@evil.tk".toList, subject := [] }]).2.2.1
    ⟨0, "a@evil.tk".toList, [], "Sender domain uses suspicious TLD (.tk)".toList,
      [suspiciousTldTag]⟩ (by decide)

/-- C3 counterexample: two links, each flagged only by the weak plain-http
indicator, produce a danger verdict in which no finding carries any strong
tag — the link analyzer reaches danger by accumulation of weak indicators
alone, refuting the claimed invariant.  (The hostname function agrees with
real URL parsing on the two hrefs used.) -/
theorem strong_indicator_counterexample :
    (analyzeUrlDeception
        (fun h => if h = "http://a.example.com/".toList then some "a.example.com".toList
                  else if h = "http://b.example.org/".toList then some "b.example.org".toList
                  else none)
        (fun _ => [])
        [{ href := "http://a.example.com/".toList, text := "Click".toList },
         { href := "http://b.example.org/".toList, text := "Here".toList }]).threatLevel =
      "danger".toList ∧
    ((analyzeUrlDeception
        (fun h => if h = "http://a.example.com/".toList then some "a.example.com".toList
                  else if h = "http://b.example.org/".toList then some "b.example.org".toList
                  else none)
        (fun _ => [])
        [{ href := "http://a.example.com/".toList, text := "Click".toList },
         { href := "http://b.example.org/".toList, text := "Here".toList }]).suspiciousLinks.all
      fun f =>
        !(f.indicators.contains knownBadTag || f.indicators.contains shortenerTag ||
          f.indicators.contains mismatchTag || f.indicators.contains suspiciousTldTag ||
          f.indicators.contains typosquattingTag)) = true := by
  decide

/-- C3 amended: the strong-indicator invariant holds for every
single-finding danger verdict of the link analyzer and for every danger
verdict of the thread analyzer; with two or more findings the link analyzer
reaches danger regardless of indicator strength (see the counterexample). -/
theorem strong_indicator_amended (hostOf : Str → Option Str)
    (urlTokens : Str → List Str) (links : List LinkRecord)
    (threads : List ThreadRecord) :
    ((analyzeUrlDeception hostOf urlTokens links).threatLevel = "danger".toList →
      (analyzeUrlDeception hostOf urlTokens links).suspiciousLinks.length = 1 →
      ∃ f ∈ (analyzeUrlDeception hostOf urlTokens links).suspiciousLinks,
        (f.indicators.contains knownBadTag = true ∨
         f.indicators.contains shortenerTag = true ∨
         f.indicators.contains mismatchTag = true)) ∧
    ((analyzeInboxLocally threads).level = "danger".toList →
      ∃ f ∈ (analyzeInboxLocally threads).findings,
        (f.indicators.contains suspiciousTldTag = true ∨
         f.indicators.contains typosquattingTag = true)) := by
  constructor
  · intro hd hlen
    have hT : (analyzeUrlDeception hostOf urlTokens links).threatLevel =
        scoreLinks ((analyzeUrlDeception hostOf urlTokens links).suspiciousLinks) := rfl
    rw [hT] at hd
    rcases hsl : (analyzeUrlDeception hostOf urlTokens links).suspiciousLinks with _ | ⟨f, rest⟩
    · rw [hsl] at hlen; simp at hlen
    · rcases rest with _ | ⟨g, rest2⟩
      · have hd2 : scoreLinks [f] = "danger".toList := by rw [← hsl]; exact hd
        refine ⟨f, List.mem_cons_self f [], ?_⟩
        by_contra hno
        have hw : scoreLinks [f] = "warning".toList := by
          unfold scoreLinks
          rw [if_neg (by simp)]
          dsimp only
          rw [if_neg hno]
        rw [hw] at hd2
        exact absurd hd2 (by decide)
      · rw [hsl] at hlen; simp at hlen
  · intro hd
    by_cases h : collectThread 0 threads = []
    · rw [analyzeInboxLocally_level, if_pos h] at hd
      exact absurd hd (by decide)
    · obtain ⟨f, hf⟩ := List.exists_mem_of_ne_nil _ h
      obtain ⟨j, hj, _, _, _, hind | ⟨brand, hind⟩⟩ := collectThread_mem 0 threads f hf
      · exact ⟨f, by rw [analyzeInboxLocally_findings]; exact hf,
          Or.inl (by rw [hind]; decide)⟩
      · exact ⟨f, by rw [analyzeInboxLocally_findings]; exact hf,
          Or.inr (by rw [hind]; simp [List.contains_cons])⟩

/-- C3 amended witness: a single shortener-flagged link yields a danger
verdict whose finding carries a strong link tag, and a suspicious-TLD thread
yields a danger verdict whose finding carries a strong thread tag. -/
theorem strong_indicator_amended_witness :
    (∃ f ∈ (analyzeUrlDeception
        (fun h => if h = "https://bit.ly/abc".toList then some "bit.ly".toList else none)
        (fun _ => [])
        [{ href := "https://bit.ly/abc".toList, text := "Click".toList }]).suspiciousLinks,
      (f.indicators.contains knownBadTag = true ∨
       f.indicators.contains shortenerTag = true ∨
       f.indicators.contains mismatchTag = true)) ∧
    (∃ f ∈ (analyzeInboxLocally
        [{ sender := "a@evil.tk".toList, subject := [] }]).findings,
      (f.indicators.contains suspiciousTldTag = true ∨
       f.indicators.contains typosquattingTag = true)) :=
  ⟨(strong_indicator_amended
      (fun h => if h = "https://bit.ly/abc".toList then some "bit.ly".toList else none)
      (fun _ => [])
      [{ href := "https://bit.ly/abc".toList, text := "Click".toList }]
      [{ sender := "a@evil.tk".toList, subject := [] }]).1 (by decide) (by decide),
   (strong_indicator_amended
      (fun h => if h = "https://bit.ly/abc".toList then some "bit.ly".toList else none)
      (fun _ => [])
      [{ href := "https://bit.ly/abc".toList, text := "Click".toList }]
      [{ sender := "a@evil.tk".toList, subject := [] }]).2 (by decide)⟩

/-- C5 counterexample: the claimed typosquatting scenario fails on the code.
For the record (sender "support@rnicrosoft-security.com", subject "verify")
the thread analyzer produces no finding at all: the edit distance between
"rnicrosoft" and "microsoft" is 2, but the threshold for the 9-character
brand "microsoft" is max(1, floor(9 * 0.2)) = 1, so the (token, brand) pair
does not qualify. -/
theorem typosquatting_scenario_counterexample :
    ((analyzeInboxLocally [{ sender := "support@rnicrosoft-security.com".toList, subject := "verify".toList }]).findings.any
      fun f => f.indicators.contains typosquattingTag) = false ∧
    analyzeInboxLocally [{ sender := "support@rnicrosoft-security.com".toList, subject := "verify".toList }] =
      { level := "safe".toList, detail := "Checks out! ✅".toList, findings := [] } ∧
    levenshtein "rnicrosoft".toList "microsoft".toList = 2 ∧
    max 1 ("microsoft".toList.length * 2 / 10) = 1 := by
  decide

/-- C5 amended: the scenario record yields no typosquatting Finding, since
distance("rnicrosoft", "microsoft") = 2 exceeds the brand threshold
max(1, floor(9 * 0.2)) = 1; a token at distance 1, e.g. "rmicrosoft" in
sender "support@rmicrosoft-security.com", does qualify and produces the
Finding tagged typosquatting with similar-to-microsoft, and the verdict is
danger. -/
theorem typosquatting_scenario_amended :
    (analyzeInboxLocally [{ sender := "support@rnicrosoft-security.com".toList, subject := "verify".toList }]).findings = [] ∧
    ((analyzeInboxLocally [{ sender := "support@rmicrosoft-security.com".toList, subject := "verify".toList }]).findings.any
      fun f => f.indicators.contains typosquattingTag &&
        f.indicators.contains ("similar-to-".toList ++ "microsoft".toList)) = true ∧
    (analyzeInboxLocally [{ sender := "support@rmicrosoft-security.com".toList, subject := "verify".toList }]).level = "danger".toList ∧
    levenshtein "rmicrosoft".toList "microsoft".toList = 1 := by
  decide

/-- C6 counterexample: a LinkRecord whose href fails URL parsing and whose
raw href contains the shortener substring "bit.ly" produces no finding at
all: the shortener and known-malicious checks are guarded by a non-empty
parsed hostname and are not applied to the raw href string, contrary to the
claim.  (Real URL parsing throws on the scheme-less "bit.ly/abc", and the
URL-like pattern finds nothing in "click here".) -/
theorem malformed_url_counterexample :
    strContains "bit.ly/abc".toList "bit.ly".toList = true ∧
    analyzeUrlDeception (fun _ => none) (fun _ => [])
        [{ href := "bit.ly/abc".toList, text := "click here".toList }] =
      { suspiciousLinks := [], threatLevel := "safe".toList, analyzed := 1 } := by
  decide

/-- C6 amended: for a link whose href fails URL parsing the analyzer does
not abort — the batch is fully analyzed — the link contributes none of the
hostname-based indicators (text-URL mismatch, shortener, known-malicious,
auth-subdomain), and exactly the http:// insecure-transport prefix check is
still applied to the raw href string. -/
theorem malformed_url_amended (hostOf : Str → Option Str)
    (urlTokens : Str → List Str) (l : LinkRecord) (links : List LinkRecord)
    (h : hostOf l.href = none) :
    linkIndicators hostOf urlTokens l =
      (if l.href ≠ [] ∧ strStartsWith l.href "http://".toList
       then [httpTag] else []) ∧
    (analyzeUrlDeception hostOf urlTokens links).analyzed = links.length := by
  constructor
  · unfold linkIndicators
    rw [h]
    simp only [Option.getD_none]
    have ha : (authPatterns.any fun p => strContains ([] : Str) p) = false := by decide
    cases htok : urlTokens l.text with
    | nil => simp [ha]
    | cons v vs => simp [ha]
  · rfl

/-- C6 amended witness: a concrete unparseable href with no http:// prefix
contributes no indicator and the one-link batch is fully analyzed. -/
theorem malformed_url_amended_witness :
    linkIndicators (fun _ => none) (fun _ => [])
        { href := "bit.ly/abc".toList, text := "click here".toList } =
      (if ("bit.ly/abc".toList ≠ ([] : Str) ∧
           strStartsWith "bit.ly/abc".toList "http://".toList)
       then [httpTag] else []) ∧
    (analyzeUrlDeception (fun _ => none) (fun _ => [])
        [{ href := "bit.ly/abc".toList, text := "click here".toList }]).analyzed =
      ([{ href := "bit.ly/abc".toList, text := "click here".toList }] :
        List LinkRecord).length :=
  malformed_url_amended (fun _ => none) (fun _ => [])
    { href := "bit.ly/abc".toList, text := "click here".toList }
    [{ href := "bit.ly/abc".toList, text := "click here".toList }] rfl

theorem dropWhile_append_of_all {α : Type} (p : α → Bool) (l1 l2 : List α)
    (h : ∀ a ∈ l1, p a = true) :
    (l1 ++ l2).dropWhile p = l2.dropWhile p := by
  induction l1 with
  | nil => rfl
  | cons a l ih =>
      rw [List.cons_append, List.dropWhile_cons,
        if_pos (h a (List.mem_cons_self a l))]
      exact ih (fun b hb => h b (List.mem_cons_of_mem a hb))

/-- When the leading prose has no opening brace and the trailing prose has
no closing brace, the greedy extraction returns exactly the block. -/
theorem extractBraceBlock_wrap (pre B suf : Str)
    (hpre : ∀ c ∈ pre, c ≠ lbrace) (hsuf : ∀ c ∈ suf, c ≠ rbrace)
    (h1 : B.head? = some lbrace) (h2 : B.getLast? = some rbrace) :
    extractBraceBlock (pre ++ B ++ suf) = some B := by
  obtain ⟨B', rfl⟩ : ∃ B', B = lbrace :: B' := by
    cases B with
    | nil => simp at h1
    | cons b bs =>
        simp at h1
        exact ⟨bs, by rw [h1]⟩
  unfold extractBraceBlock
  have hs2 : (pre ++ (lbrace :: B') ++ suf).dropWhile (fun c => !(c == lbrace)) =
      (lbrace :: B') ++ suf := by
    rw [List.append_assoc,
      dropWhile_append_of_all _ pre _ (fun a ha => by simp [hpre a ha]),
      List.cons_append, List.dropWhile_cons, if_neg (by simp)]
  rw [hs2]
  rw [if_neg (by simp)]
  rw [List.reverse_append,
    dropWhile_append_of_all _ suf.reverse _
      (fun a ha => by simp [hsuf a (List.mem_reverse.mp ha)])]
  obtain ⟨rest, hr⟩ : ∃ rest, (lbrace :: B').reverse = rbrace :: rest := by
    cases hrv : (lbrace :: B').reverse with
    | nil => simp at hrv
    | cons x rest =>
        have h3 : (lbrace :: B').reverse.head? = some x := by rw [hrv]; rfl
        rw [List.head?_reverse, h2] at h3
        obtain rfl : rbrace = x := by injection h3
        exact ⟨rest, rfl⟩
  rw [hr, List.dropWhile_cons, if_neg (by simp)]
  rw [if_neg (by simp)]
  rw [← hr, List.reverse_reverse]

/-- C9 amended: the extraction invariance holds exactly for surrounding
prose whose prefix contains no opening brace and whose suffix contains no
closing brace: then the normalizer applied to prefix ++ B ++ suffix returns
the same parsed object as applied to B alone. -/
theorem normalizer_extraction_amended {J : Type} (jparse : Str → Option J)
    (v : J) (pre B suf : Str) (hpre : lbrace ∉ pre) (hsuf : rbrace ∉ suf)
    (h1 : B.head? = some lbrace) (h2 : B.getLast? = some rbrace)
    (hj : jparse B = some v) :
    parseAIResponse jparse (pre ++ B ++ suf) = ParseResult.ok v ∧
    parseAIResponse jparse B = ParseResult.ok v := by
  have hw := extractBraceBlock_wrap pre B suf
    (fun c hc hceq => hpre (hceq ▸ hc)) (fun c hc hceq => hsuf (hceq ▸ hc)) h1 h2
  have hb : extractBraceBlock B = some B := by
    have := extractBraceBlock_wrap [] B []
      (by intro c hc; simp at hc) (by intro c hc; simp at hc) h1 h2
    simpa using this
  constructor
  · unfold parseAIResponse
    rw [hw]
    dsimp only
    rw [hj]
  · unfold parseAIResponse
    rw [hb]
    dsimp only
    rw [hj]

/-- C9 amended witness: a concrete block wrapped in brace-free prose parses
to the same object as the block alone. -/
theorem normalizer_extraction_amended_witness :
    parseAIResponse (fun s => if s = "\x7b\"a\":1\x7d".toList then some 1 else none)
        ("ok: ".toList ++ "\x7b\"a\":1\x7d".toList ++ " end".toList) =
      ParseResult.ok 1 ∧
    parseAIResponse (fun s => if s = "\x7b\"a\":1\x7d".toList then some 1 else none)
        "\x7b\"a\":1\x7d".toList = ParseResult.ok 1 :=
  normalizer_extraction_amended
    (fun s => if s = "\x7b\"a\":1\x7d".toList then some 1 else none) 1
    "ok: ".toList "\x7b\"a\":1\x7d".toList " end".toList
    (by decide) (by decide) (by decide) (by decide) (by decide)

/-- C9 counterexample: a closing brace in the trailing prose defeats the
extraction — the greedy first-brace-to-last-brace match grabs a segment that
does not parse, so the wrapped text yields the error object while the block
alone parses: the normalizer does not locate the first top-level structured
block.  (The parse function agrees with JSON.parse on both strings it is
applied to here.) -/
theorem normalizer_extraction_counterexample :
    parseAIResponse (fun s => if s = "\x7b\"a\":1\x7d".toList then some 1 else none)
        ("Result: ".toList ++ "\x7b\"a\":1\x7d".toList ++ " done\x7d".toList) =
      ParseResult.error "Could not parse AI response".toList
        ("Result: ".toList ++ "\x7b\"a\":1\x7d".toList ++ " done\x7d".toList) ∧
    parseAIResponse (fun s => if s = "\x7b\"a\":1\x7d".toList then some 1 else none)
        "\x7b\"a\":1\x7d".toList = ParseResult.ok 1 := by
  decide

end Aegis
